import Mathlib

/-!
Verification of the payload data model and serialization of `rust-slack`
(`src/serde_types.in.rs`) against its specification.

The wire format is modelled as a `JValue` tree: serde's derived `Serialize`
for a struct emits the fields in declaration order as key/value pairs of an
object, and a field annotated `skip_serializing_if = "Option::is_none"`
contributes no pair when it is `None`.  Newtype structs (`SlackText`,
`HexColor`) serialize transparently as their inner string; `Vec` serializes
as an ordered array; `u8` and `bool` serialize as a number and a boolean.
-/

namespace Slack

/-- A JSON-like wire value: the output domain of serialization. -/
inductive JValue where
  | str (s : String)
  | int (n : Int)
  | bool (b : Bool)
  | arr (elems : List JValue)
  | obj (members : List (String × JValue))

/-- `SlackText(String)`: text sent through slack, stored post-escape. -/
structure SlackText where
  val : String
deriving DecidableEq

/-- Rust `Default` for `SlackText`: the empty string. -/
def SlackText.default : SlackText := ⟨""⟩

/-- `HexColor(String)`: a reserved keyword or a `#`-led hex color code. -/
structure HexColor where
  val : String
deriving DecidableEq

/-- External `url::Url` modelled by its string form; the core treats it as an
opaque validated URL and serializes the string as supplied. -/
structure Url where
  val : String
deriving DecidableEq

/-- External `chrono::NaiveDateTime` modelled as whole seconds since the Unix
epoch plus a sub-second nanosecond component; `timestamp()` returns the whole
seconds, discarding `nsecs`. -/
structure NaiveDateTime where
  secs : Int
  nsecs : Nat
deriving DecidableEq

/-- `chrono::NaiveDateTime::timestamp()`: seconds since the Unix epoch,
sub-second part truncated. -/
def NaiveDateTime.timestamp (t : NaiveDateTime) : Int := t.secs

/-- Days from the Unix epoch to civil date y-m-d (proleptic Gregorian),
the standard civil-from-days inverse used by calendar libraries. -/
def daysFromCivil (y : Int) (m d : Nat) : Int :=
  let y2 : Int := if m ≤ 2 then y - 1 else y
  let era : Int := Int.fdiv y2 400
  let yoe : Int := y2 - era * 400
  let mp : Nat := if 2 < m then m - 3 else m + 9
  let doy : Int := ((153 * mp + 2) / 5 + d - 1 : Nat)
  let doe : Int := yoe * 365 + Int.fdiv yoe 4 - Int.fdiv yoe 100 + doy
  era * 146097 + doe - 719468

/-- Build a `NaiveDateTime` from calendar fields (UTC), as chrono's
`NaiveDate::from_ymd(..).and_hms_nano(..)` does. -/
def NaiveDateTime.fromYmdHmsNano (y : Int) (m d h mi s nano : Nat) : NaiveDateTime :=
  { secs := daysFromCivil y m d * 86400 + (h * 3600 + mi * 60 + s : Nat), nsecs := nano }

/-- `SlackTime(NaiveDateTime)`. -/
structure SlackTime where
  time : NaiveDateTime
deriving DecidableEq

/-- `SlackTime::new`. -/
def SlackTime.new (t : NaiveDateTime) : SlackTime := ⟨t⟩

/-- `enum Parse { Full, None }`. -/
inductive Parse where
  | Full
  | None
deriving DecidableEq

/-- `struct Field { title, value, short }`. -/
structure Field where
  title : String
  value : SlackText
  short : Option Bool
deriving DecidableEq

/-- `struct Attachment`: required `fallback`, everything else optional. -/
structure Attachment where
  fallback : SlackText
  text : Option SlackText
  pretext : Option SlackText
  color : Option HexColor
  fields : Option (List Field)
  author_name : Option SlackText
  author_link : Option Url
  author_icon : Option Url
  title : Option SlackText
  title_link : Option Url
  image_url : Option Url
  thumb_url : Option Url
  footer : Option SlackText
  footer_icon : Option Url
  ts : Option SlackTime
deriving DecidableEq

/-- Rust `Default` for `Attachment`: empty fallback, all optionals unset. -/
def Attachment.default : Attachment :=
  ⟨SlackText.default, none, none, none, none, none, none, none, none, none,
   none, none, none, none, none⟩

/-- `struct Payload`: all fields optional; `link_names` is `Option<u8>`. -/
structure Payload where
  text : Option SlackText
  channel : Option String
  username : Option String
  icon_url : Option Url
  icon_emoji : Option String
  attachments : Option (List Attachment)
  unfurl_links : Option Bool
  unfurl_media : Option Bool
  link_names : Option (Fin 256)
  parse : Option Parse
deriving DecidableEq

/-- Rust `Default` for `Payload`: all optionals unset. -/
def Payload.default : Payload :=
  ⟨none, none, none, none, none, none, none, none, none, none⟩

/-! ### Serialization to `JValue` -/

/-- Derived `Serialize` of the newtype `SlackText`: the inner string. -/
def encodeSlackText (st : SlackText) : JValue := .str st.val

/-- Derived `Serialize` of the newtype `HexColor`: the inner string. -/
def encodeHexColor (c : HexColor) : JValue := .str c.val

/-- `url::Url` serializes as its string form. -/
def encodeUrl (u : Url) : JValue := .str u.val

/-- `impl Serialize for SlackTime`: `serializer.serialize_i64(self.0.timestamp())`. -/
def encodeSlackTime (t : SlackTime) : JValue := .int t.time.timestamp

/-- `impl Serialize for Parse`: `Full` to `"full"`, `None` to `"none"`,
via `serialize_str`. -/
def encodeParse : Parse → JValue
  | .Full => .str "full"
  | .None => .str "none"

/-- One optional struct field under `skip_serializing_if = "Option::is_none"`:
no pair when unset, one pair when set. -/
def optPair (k : String) (o : Option α) (f : α → JValue) : List (String × JValue) :=
  match o with
  | none => []
  | some v => [(k, f v)]

/-- Derived `Serialize` for `Field`: `title` and `value` always, `short`
only when set, in declaration order. -/
def encodeField (f : Field) : JValue :=
  .obj (("title", .str f.title) :: ("value", encodeSlackText f.value) ::
    optPair "short" f.short (fun b => .bool b))

/-- Derived `Serialize` for `Attachment`: `fallback` unconditionally, each
optional field only when set, in declaration order. -/
def encodeAttachment (a : Attachment) : JValue :=
  .obj (("fallback", encodeSlackText a.fallback) ::
    (optPair "text" a.text encodeSlackText ++
     optPair "pretext" a.pretext encodeSlackText ++
     optPair "color" a.color encodeHexColor ++
     optPair "fields" a.fields (fun fs => .arr (fs.map encodeField)) ++
     optPair "author_name" a.author_name encodeSlackText ++
     optPair "author_link" a.author_link encodeUrl ++
     optPair "author_icon" a.author_icon encodeUrl ++
     optPair "title" a.title encodeSlackText ++
     optPair "title_link" a.title_link encodeUrl ++
     optPair "image_url" a.image_url encodeUrl ++
     optPair "thumb_url" a.thumb_url encodeUrl ++
     optPair "footer" a.footer encodeSlackText ++
     optPair "footer_icon" a.footer_icon encodeUrl ++
     optPair "ts" a.ts encodeSlackTime))

/-- Derived `Serialize` for `Payload`: every field optional, emitted only
when set, in declaration order. -/
def encodePayload (p : Payload) : JValue :=
  .obj (optPair "text" p.text encodeSlackText ++
    optPair "channel" p.channel (fun s => .str s) ++
    optPair "username" p.username (fun s => .str s) ++
    optPair "icon_url" p.icon_url encodeUrl ++
    optPair "icon_emoji" p.icon_emoji (fun s => .str s) ++
    optPair "attachments" p.attachments (fun l => .arr (l.map encodeAttachment)) ++
    optPair "unfurl_links" p.unfurl_links (fun b => .bool b) ++
    optPair "unfurl_media" p.unfurl_media (fun b => .bool b) ++
    optPair "link_names" p.link_names (fun b => .int b.val) ++
    optPair "parse" p.parse encodeParse)

/-! ### Observers on wire values -/

/-- The key list of an encoded object (empty for non-objects). -/
def objKeys : JValue → List String
  | .obj l => l.map Prod.fst
  | _ => []

/-- First-match lookup among an object's key/value pairs. -/
def lookupPairs (k : String) : List (String × JValue) → Option JValue
  | [] => none
  | (k₂, v) :: rest => if k₂ = k then some v else lookupPairs k rest

/-- Lookup of a key in an encoded object (none for non-objects). -/
def jLookup (k : String) (j : JValue) : Option JValue :=
  match j with
  | .obj l => lookupPairs k l
  | _ => none

/-- `[k]` when the optional is set, `[]` when unset: the key contribution of
one optional field. -/
def keyIf (k : String) (o : Option α) : List String :=
  match o with
  | none => []
  | some _ => [k]

theorem optPair_keys (k : String) (o : Option α) (f : α → JValue) :
    (optPair k o f).map Prod.fst = keyIf k o := by
  cases o <;> rfl

/-! ### Theorems -/

/-- C6: `Parse` encodes `Full` to exactly `"full"` and `None` to exactly
`"none"`, and `Full`/`None` are the only two values of the enumeration. -/
theorem parse_encodes_lowercase_and_closed :
    encodeParse Parse.Full = .str "full" ∧ encodeParse Parse.None = .str "none" ∧
      ∀ pm : Parse, pm = Parse.Full ∨ pm = Parse.None := by
  refine ⟨rfl, rfl, ?_⟩
  intro pm
  cases pm
  · exact Or.inl rfl
  · exact Or.inr rfl

/-- C7: a `Field`'s title is not escaped by the core: the encoded `"title"`
entry is the caller-supplied string verbatim, even when it contains markup
characters, as witnessed on the title `"a&<b>"`. -/
theorem field_title_not_escaped :
    (∀ f : Field, jLookup "title" (encodeField f) = some (.str f.title)) ∧
      jLookup "title" (encodeField ⟨"a&<b>", ⟨"v"⟩, none⟩) = some (.str "a&<b>") := by
  constructor
  · intro f
    simp [jLookup, encodeField, lookupPairs]
  · simp [jLookup, encodeField, lookupPairs]

/-- C4: a `SlackTime` encodes as the integer count of whole seconds since the
Unix epoch (sub-second component truncated), as a numeric wire value and never
a string; 2021-01-01T00:00:00 UTC encodes to 1609459200. -/
theorem slacktime_encodes_epoch_seconds :
    (∀ t : SlackTime, encodeSlackTime t = .int t.time.timestamp) ∧
      (∀ t : SlackTime, ∃ n : Int, encodeSlackTime t = .int n) ∧
      (∀ y : Int, ∀ m d h mi s n : Nat,
        (NaiveDateTime.fromYmdHmsNano y m d h mi s n).timestamp =
          (NaiveDateTime.fromYmdHmsNano y m d h mi s 0).timestamp) ∧
      encodeSlackTime (SlackTime.new (NaiveDateTime.fromYmdHmsNano 2021 1 1 0 0 0 0)) =
        .int 1609459200 :=
  ⟨fun t => rfl, fun t => ⟨t.time.timestamp, rfl⟩, fun y m d h mi s n => rfl, rfl⟩

/-- C10: every encoded `Attachment` contains the key `"fallback"`
unconditionally, and the default attachment encodes to an object whose sole
entry is `"fallback"` bound to the empty string. -/
theorem attachment_always_has_fallback :
    (∀ a : Attachment, jLookup "fallback" (encodeAttachment a) = some (.str a.fallback.val)) ∧
      encodeAttachment Attachment.default = .obj [("fallback", .str "")] := by
  constructor
  · intro a
    simp [jLookup, encodeAttachment, lookupPairs, encodeSlackText]
  · rfl

/-- C1: a `Payload` with only `text` set encodes to an object whose only key
is `"text"`; in general the key list of an encoded `Payload`, `Attachment`,
or `Field` contains exactly the required keys plus one key per optional field
that is set — an unset optional contributes no key at all. -/
theorem unset_optionals_contribute_no_key :
    (∀ st : SlackText,
      encodePayload ⟨some st, none, none, none, none, none, none, none, none, none⟩ =
        .obj [("text", .str st.val)]) ∧
    (∀ p : Payload, objKeys (encodePayload p) =
      keyIf "text" p.text ++ keyIf "channel" p.channel ++ keyIf "username" p.username ++
      keyIf "icon_url" p.icon_url ++ keyIf "icon_emoji" p.icon_emoji ++
      keyIf "attachments" p.attachments ++ keyIf "unfurl_links" p.unfurl_links ++
      keyIf "unfurl_media" p.unfurl_media ++ keyIf "link_names" p.link_names ++
      keyIf "parse" p.parse) ∧
    (∀ a : Attachment, objKeys (encodeAttachment a) =
      "fallback" :: (keyIf "text" a.text ++ keyIf "pretext" a.pretext ++
      keyIf "color" a.color ++ keyIf "fields" a.fields ++
      keyIf "author_name" a.author_name ++ keyIf "author_link" a.author_link ++
      keyIf "author_icon" a.author_icon ++ keyIf "title" a.title ++
      keyIf "title_link" a.title_link ++ keyIf "image_url" a.image_url ++
      keyIf "thumb_url" a.thumb_url ++ keyIf "footer" a.footer ++
      keyIf "footer_icon" a.footer_icon ++ keyIf "ts" a.ts)) ∧
    (∀ f : Field, objKeys (encodeField f) = "title" :: "value" :: keyIf "short" f.short) := by
  refine ⟨fun st => rfl, fun p => ?_, fun a => ?_, fun f => ?_⟩
  · simp [encodePayload, objKeys, optPair_keys]
  · simp [encodeAttachment, objKeys, optPair_keys]
  · simp [encodeField, objKeys, optPair_keys]

theorem lookupPairs_cons_ne {k k₂ : String} (h : k₂ ≠ k) (v : JValue)
    (rest : List (String × JValue)) :
    lookupPairs k ((k₂, v) :: rest) = lookupPairs k rest := by
  simp [lookupPairs, h]

theorem lookupPairs_optPair_ne {k k₂ : String} (h : k₂ ≠ k) (o : Option α)
    (f : α → JValue) (rest : List (String × JValue)) :
    lookupPairs k (optPair k₂ o f ++ rest) = lookupPairs k rest := by
  cases o <;> simp [optPair, lookupPairs, h]

theorem lookupPairs_optPair_some {k : String} (v : α) (f : α → JValue)
    (rest : List (String × JValue)) :
    lookupPairs k (optPair k (some v) f ++ rest) = some (f v) := by
  simp [optPair, lookupPairs]

/-- C9: list-valued fields encode order-preservingly: a set `fields` entry of
an `Attachment` encodes as the sequence of the `Field` encodings in order, and
a set `attachments` entry of a `Payload` encodes as the sequence of the
`Attachment` encodings in order. -/
theorem lists_encode_in_order :
    (∀ (a : Attachment) (fs : List Field), a.fields = some fs →
      jLookup "fields" (encodeAttachment a) = some (.arr (fs.map encodeField))) ∧
    (∀ (p : Payload) (ats : List Attachment), p.attachments = some ats →
      jLookup "attachments" (encodePayload p) = some (.arr (ats.map encodeAttachment))) := by
  constructor
  · intro a fs h
    simp only [encodeAttachment, jLookup, List.append_assoc]
    rw [lookupPairs_cons_ne (by decide), lookupPairs_optPair_ne (by decide),
      lookupPairs_optPair_ne (by decide), lookupPairs_optPair_ne (by decide), h,
      lookupPairs_optPair_some]
  · intro p ats h
    simp only [encodePayload, jLookup, List.append_assoc]
    rw [lookupPairs_optPair_ne (by decide), lookupPairs_optPair_ne (by decide),
      lookupPairs_optPair_ne (by decide), lookupPairs_optPair_ne (by decide),
      lookupPairs_optPair_ne (by decide), h, lookupPairs_optPair_some]

/-- A concrete field: `{title: "k", value: "v", short: true}`. -/
def fieldEx : Field := ⟨"k", ⟨"v"⟩, some true⟩

/-- A concrete attachment holding one field. -/
def attachmentEx : Attachment :=
  { Attachment.default with fallback := ⟨"fb"⟩, fields := some [fieldEx] }

/-- A concrete payload holding one attachment. -/
def payloadEx : Payload :=
  { Payload.default with attachments := some [attachmentEx] }

theorem lists_encode_in_order_witness :
    jLookup "fields" (encodeAttachment attachmentEx) =
        some (.arr ([fieldEx].map encodeField)) ∧
      jLookup "attachments" (encodePayload payloadEx) =
        some (.arr ([attachmentEx].map encodeAttachment)) :=
  ⟨lists_encode_in_order.1 attachmentEx [fieldEx] rfl,
   lists_encode_in_order.2 payloadEx [attachmentEx] rfl⟩

/-- A payload whose `link_names` carries the byte 42: constructible because
the source declares `link_names` as `Option<u8>`, not a tri-state. -/
def payloadLink42 : Payload := { Payload.default with link_names := some 42 }

/-- C8, counterexample: `link_names` is not tri-state — the constructible
payload `payloadLink42` has `link_names` equal to neither unset, 0, nor 1. -/
theorem link_names_not_tristate :
    ¬(payloadLink42.link_names = none ∨ payloadLink42.link_names = some 0 ∨
      payloadLink42.link_names = some 1) := by
  decide

/-- C8, amended: `link_names` is an optional unsigned byte (`Option<u8>`):
besides unset, every value 0..255 is representable, and it encodes as that
number under the `"link_names"` key. -/
theorem link_names_any_byte (b : Fin 256) :
    ∃ p : Payload, p.link_names = some b ∧
      jLookup "link_names" (encodePayload p) = some (.int b.val) := by
  refine ⟨{ Payload.default with link_names := some b }, rfl, ?_⟩
  simp only [encodePayload, jLookup, List.append_assoc]
  rw [lookupPairs_optPair_ne (by decide), lookupPairs_optPair_ne (by decide),
    lookupPairs_optPair_ne (by decide), lookupPairs_optPair_ne (by decide),
    lookupPairs_optPair_ne (by decide), lookupPairs_optPair_ne (by decide),
    lookupPairs_optPair_ne (by decide), lookupPairs_optPair_ne (by decide)]
  exact lookupPairs_optPair_some b _ _

theorem link_names_any_byte_witness :
    ∃ p : Payload, p.link_names = some 42 ∧
      jLookup "link_names" (encodePayload p) = some (.int (42 : Fin 256).val) :=
  link_names_any_byte 42

/-- The validation error raised on a bad color input, carrying the reason and
the offending input. -/
inductive ValidationError where
  | InvalidColor (reason : String) (input : String)
deriving DecidableEq

/-- A hexadecimal digit: `0-9`, `a-f`, or `A-F`. -/
def isHexDigitChar (c : Char) : Bool :=
  c.isDigit || ('a' ≤ c && c ≤ 'f') || ('A' ≤ c && c ≤ 'F')

/-- A `#` followed by exactly 3 or exactly 6 hexadecimal digits. -/
def hexColorCheck : List Char → Bool
  | '#' :: rest => (rest.length = 3 || rest.length = 6) && rest.all isHexDigitChar
  | _ => false

/-- Modelled from the spec: `Color::parse` (the fallible `HexColor`
constructor), absent from `src/` (only the `HexColor` newtype declaration is
there).  Accepts the exact keywords `good`, `warning`, `danger`, or `#`
followed by 3 or 6 hex digits; stores the input unchanged on success; fails
with `InvalidColor` carrying the reason and the input otherwise. -/
def colorParse (s : String) : Except ValidationError HexColor :=
  if s = "good" ∨ s = "warning" ∨ s = "danger" then .ok ⟨s⟩
  else if hexColorCheck s.data then .ok ⟨s⟩
  else .error (.InvalidColor "color must be a keyword or a hex string" s)

theorem hexColorCheck_iff (l : List Char) :
    hexColorCheck l = true ↔
      ∃ t : List Char, l = '#' :: t ∧ (t.length = 3 ∨ t.length = 6) ∧
        ∀ c ∈ t, isHexDigitChar c = true := by
  cases l with
  | nil => simp [hexColorCheck]
  | cons c rest =>
    by_cases h : c = '#'
    · subst h
      simp [hexColorCheck, List.all_eq_true]
    · simp [hexColorCheck, h]

/-- C3: `colorParse` succeeds iff the input is one of the exact keywords
`good`, `warning`, `danger`, or `#` followed by exactly 3 or exactly 6 hex
digits; on success the stored string and the encoding equal the input
unchanged; on failure the error is `InvalidColor` carrying the input. -/
theorem color_parse_characterization (s : String) :
    ((∃ c, colorParse s = .ok c) ↔
      (s = "good" ∨ s = "warning" ∨ s = "danger" ∨
        ∃ t : List Char, s.data = '#' :: t ∧ (t.length = 3 ∨ t.length = 6) ∧
          ∀ c ∈ t, isHexDigitChar c = true)) ∧
    (∀ c, colorParse s = .ok c → c.val = s ∧ encodeHexColor c = .str s) ∧
    (∀ e, colorParse s = .error e → ∃ r, e = .InvalidColor r s) := by
  refine ⟨?_, ?_, ?_⟩
  · by_cases hk : s = "good" ∨ s = "warning" ∨ s = "danger"
    · simp only [colorParse, if_pos hk]
      constructor
      · intro _
        tauto
      · intro _
        exact ⟨⟨s⟩, rfl⟩
    · by_cases hh : hexColorCheck s.data = true
      · simp only [colorParse, if_neg hk, if_pos hh]
        constructor
        · intro _
          exact Or.inr (Or.inr (Or.inr ((hexColorCheck_iff s.data).mp hh)))
        · intro _
          exact ⟨⟨s⟩, rfl⟩
      · simp only [colorParse, if_neg hk, if_neg hh]
        constructor
        · intro ⟨c, hc⟩
          exact Except.noConfusion hc
        · intro hr
          rcases hr with h | h | h | ⟨t, h1, h2, h3⟩

          · exact absurd (Or.inl h) hk
          · exact absurd (Or.inr (Or.inl h)) hk
          · exact absurd (Or.inr (Or.inr h)) hk
          · exact (hh ((hexColorCheck_iff s.data).mpr ⟨t, h1, h2, h3⟩)).elim
  · intro c h
    simp only [colorParse] at h
    split at h
    · cases h
      exact ⟨rfl, rfl⟩
    · split at h
      · cases h
        exact ⟨rfl, rfl⟩
      · exact Except.noConfusion h
  · intro e h
    simp only [colorParse] at h
    split at h
    · exact Except.noConfusion h
    · split at h
      · exact Except.noConfusion h
      · cases h
        exact ⟨_, rfl⟩

theorem color_parse_characterization_witness :
    ((HexColor.mk "#fff").val = "#fff" ∧ encodeHexColor ⟨"#fff"⟩ = .str "#fff") ∧
      ∃ r, ValidationError.InvalidColor "color must be a keyword or a hex string" "blue" =
        .InvalidColor r "blue" :=
  ⟨(color_parse_characterization "#fff").2.1 ⟨"#fff"⟩ rfl,
   (color_parse_characterization "blue").2.2 _ rfl⟩

/-! ### Text escaping (`EscapedText::from_raw`) -/

/-- Concatenation of per-character expansions: one left-to-right pass that
replaces each character by a chunk. -/
def charMapConcat (f : Char → List Char) : List Char → List Char
  | [] => []
  | c :: rest => f c ++ charMapConcat f rest

/-- `&` expands to `&amp;`, everything else is kept. -/
def ampChunk (c : Char) : List Char :=
  if c = '&' then ['&', 'a', 'm', 'p', ';'] else [c]

/-- `<` expands to `&lt;`, everything else is kept. -/
def ltChunk (c : Char) : List Char :=
  if c = '<' then ['&', 'l', 't', ';'] else [c]

/-- `>` expands to `&gt;`, everything else is kept. -/
def gtChunk (c : Char) : List Char :=
  if c = '>' then ['&', 'g', 't', ';'] else [c]

/-- Modelled from the spec: `EscapedText::from_raw` (the escaping constructor
of `SlackText`), absent from `src/` (only the `SlackText` newtype declaration
is there).  Replaces `&` with `&amp;` first, then `<` with `&lt;`, then `>`
with `&gt;`, transforming no other character; always succeeds. -/
def SlackText.fromRaw (s : String) : SlackText :=
  ⟨⟨charMapConcat gtChunk (charMapConcat ltChunk (charMapConcat ampChunk s.data))⟩⟩

/-- The three passes fused into one per-character expansion. -/
def escChunk (c : Char) : List Char :=
  if c = '&' then ['&', 'a', 'm', 'p', ';']
  else if c = '<' then ['&', 'l', 't', ';']
  else if c = '>' then ['&', 'g', 't', ';']
  else [c]

theorem charMapConcat_append (f : Char → List Char) (l₁ l₂ : List Char) :
    charMapConcat f (l₁ ++ l₂) = charMapConcat f l₁ ++ charMapConcat f l₂ := by
  induction l₁ with
  | nil => rfl
  | cons c rest ih => simp [charMapConcat, ih]

theorem three_passes_eq_one (c : Char) :
    charMapConcat gtChunk (charMapConcat ltChunk (ampChunk c)) = escChunk c := by
  by_cases h1 : c = '&'
  · subst h1
    rfl
  · by_cases h2 : c = '<'
    · subst h2
      rfl
    · by_cases h3 : c = '>'
      · subst h3
        rfl
      · simp [ampChunk, ltChunk, gtChunk, escChunk, charMapConcat, h1, h2, h3]

theorem escape_comp_eq (l : List Char) :
    charMapConcat gtChunk (charMapConcat ltChunk (charMapConcat ampChunk l)) =
      charMapConcat escChunk l := by
  induction l with
  | nil => rfl
  | cons c rest ih =>
    show charMapConcat gtChunk (charMapConcat ltChunk (ampChunk c ++ charMapConcat ampChunk rest)) = _
    rw [charMapConcat_append, charMapConcat_append]
    show _ ++ charMapConcat gtChunk (charMapConcat ltChunk (charMapConcat ampChunk rest)) = _
    rw [ih, three_passes_eq_one]
    rfl

theorem escChunk_no_markup (c : Char) : '<' ∉ escChunk c ∧ '>' ∉ escChunk c := by
  by_cases h1 : c = '&'
  · subst h1
    constructor <;> decide
  · by_cases h2 : c = '<'
    · subst h2
      constructor <;> decide
    · by_cases h3 : c = '>'
      · subst h3
        constructor <;> decide
      · simp [escChunk, h1, h2, h3]
        exact ⟨fun h => h2 h.symm, fun h => h3 h.symm⟩

theorem escape_no_markup (l : List Char) :
    '<' ∉ charMapConcat escChunk l ∧ '>' ∉ charMapConcat escChunk l := by
  induction l with
  | nil => constructor <;> simp [charMapConcat]
  | cons c rest ih =>
    simp only [charMapConcat, List.mem_append]
    constructor
    · intro h
      rcases h with h | h
      · exact (escChunk_no_markup c).1 h
      · exact ih.1 h
    · intro h
      rcases h with h | h
      · exact (escChunk_no_markup c).2 h
      · exact ih.2 h

/-- `r` begins with the tail of one of the three entities: the shape required
right after any `&` in escaped output. -/
def entityAfter (r : List Char) : Prop :=
  (∃ t, r = 'a' :: 'm' :: 'p' :: ';' :: t) ∨
    (∃ t, r = 'l' :: 't' :: ';' :: t) ∨
    (∃ t, r = 'g' :: 't' :: ';' :: t)

theorem split_cons_append {x y : Char} {xs l r : List Char}
    (h : x :: xs = l ++ y :: r) :
    (l = [] ∧ x = y ∧ xs = r) ∨ ∃ l₂, l = x :: l₂ ∧ xs = l₂ ++ y :: r := by
  cases l with
  | nil =>
    simp only [List.nil_append] at h
    exact Or.inl ⟨rfl, (List.cons.injEq _ _ _ _ ▸ h).1, (List.cons.injEq _ _ _ _ ▸ h).2⟩
  | cons a l₂ =>
    simp only [List.cons_append, List.cons.injEq] at h
    exact Or.inr ⟨l₂, by rw [h.1], h.2⟩

theorem escape_amp_entity (inp : List Char) :
    ∀ l r, charMapConcat escChunk inp = l ++ '&' :: r → entityAfter r := by
  induction inp with
  | nil =>
    intro l r h
    simp [charMapConcat, eq_comm] at h
  | cons c rest ih =>
    intro l r h
    rw [charMapConcat] at h
    by_cases h1 : c = '&'
    · subst h1
      rw [escChunk, if_pos rfl] at h
      rcases split_cons_append h with ⟨_, _, hxs⟩ | ⟨l₂, _, h2⟩
      · exact Or.inl ⟨_, hxs.symm⟩
      · rcases split_cons_append h2 with ⟨_, hx, _⟩ | ⟨l₃, _, h3⟩
        · exact absurd hx (by decide)
        · rcases split_cons_append h3 with ⟨_, hx, _⟩ | ⟨l₄, _, h4⟩
          · exact absurd hx (by decide)
          · rcases split_cons_append h4 with ⟨_, hx, _⟩ | ⟨l₅, _, h5⟩
            · exact absurd hx (by decide)
            · rcases split_cons_append h5 with ⟨_, hx, _⟩ | ⟨l₆, _, h6⟩
              · exact absurd hx (by decide)
              · exact ih l₆ r h6
    · by_cases h2 : c = '<'
      · subst h2
        rw [escChunk, if_neg (by decide), if_pos rfl] at h
        rcases split_cons_append h with ⟨_, _, hxs⟩ | ⟨l₂, _, hn2⟩
        · exact Or.inr (Or.inl ⟨_, hxs.symm⟩)
        · rcases split_cons_append hn2 with ⟨_, hx, _⟩ | ⟨l₃, _, hn3⟩
          · exact absurd hx (by decide)
          · rcases split_cons_append hn3 with ⟨_, hx, _⟩ | ⟨l₄, _, hn4⟩
            · exact absurd hx (by decide)
            · rcases split_cons_append hn4 with ⟨_, hx, _⟩ | ⟨l₅, _, hn5⟩
              · exact absurd hx (by decide)
              · exact ih l₅ r hn5
      · by_cases h3 : c = '>'
        · subst h3
          rw [escChunk, if_neg (by decide), if_neg (by decide), if_pos rfl] at h
          rcases split_cons_append h with ⟨_, _, hxs⟩ | ⟨l₂, _, hn2⟩
          · exact Or.inr (Or.inr ⟨_, hxs.symm⟩)
          · rcases split_cons_append hn2 with ⟨_, hx, _⟩ | ⟨l₃, _, hn3⟩
            · exact absurd hx (by decide)
            · rcases split_cons_append hn3 with ⟨_, hx, _⟩ | ⟨l₄, _, hn4⟩
              · exact absurd hx (by decide)
              · rcases split_cons_append hn4 with ⟨_, hx, _⟩ | ⟨l₅, _, hn5⟩
                · exact absurd hx (by decide)
                · exact ih l₅ r hn5
        · rw [escChunk, if_neg h1, if_neg h2, if_neg h3] at h
          rcases split_cons_append h with ⟨_, hx, _⟩ | ⟨l₂, _, hn2⟩
          · exact absurd hx h1
          · exact ih l₂ r hn2

/-- C2: escaping is infallible (a total function) and for every string the
escaped output contains no literal `<` or `>`; every `&` in the output is
immediately followed by `amp;`, `lt;`, or `gt;` (never a bare ampersand),
because `&` is replaced before `<` and `>`; on `"<b>&</b>"` the output is
`"&lt;b&gt;&amp;&lt;/b&gt;"`, with no re-escaping of introduced ampersands. -/
theorem from_raw_escapes (s : String) :
    ('<' ∉ (SlackText.fromRaw s).val.data ∧ '>' ∉ (SlackText.fromRaw s).val.data) ∧
      (∀ l r, (SlackText.fromRaw s).val.data = l ++ '&' :: r → entityAfter r) ∧
      SlackText.fromRaw "<b>&</b>" = ⟨"&lt;b&gt;&amp;&lt;/b&gt;"⟩ := by
  have he : (SlackText.fromRaw s).val.data = charMapConcat escChunk s.data := by
    simp [SlackText.fromRaw, escape_comp_eq]
  refine ⟨?_, ?_, ?_⟩
  · rw [he]
    exact escape_no_markup s.data
  · rw [he]
    exact escape_amp_entity s.data
  · rfl

theorem from_raw_escapes_witness : entityAfter ['a', 'm', 'p', ';', 'b'] :=
  (from_raw_escapes "a&b").2.1 ['a'] ['a', 'm', 'p', ';', 'b'] (by decide)

/-! ### Error-propagating serializers

Rust's `Serialize` methods return `Result<(), S::Error>`; these variants keep
that error channel explicit, so that totality of encoding is a theorem rather
than a typing accident. -/

theorem ok_bind {ε α β : Type} (a : α) (f : α → Except ε β) :
    (Except.ok a >>= f) = f a := rfl

/-- Error-propagating serialization of one optional struct field. -/
def optPairE (k : String) (o : Option α) (f : α → Except String JValue) :
    Except String (List (String × JValue)) :=
  match o with
  | none => .ok []
  | some v => do
      let j ← f v
      .ok [(k, j)]

/-- Error-propagating serialization of a sequence, element by element in
order, stopping at the first error. -/
def mapJE (f : α → Except String JValue) : List α → Except String (List JValue)
  | [] => .ok []
  | x :: xs => do
      let v ← f x
      let vs ← mapJE f xs
      .ok (v :: vs)

def encodeSlackTextE (st : SlackText) : Except String JValue := .ok (.str st.val)

def encodeHexColorE (c : HexColor) : Except String JValue := .ok (.str c.val)

def encodeUrlE (u : Url) : Except String JValue := .ok (.str u.val)

def encodeSlackTimeE (t : SlackTime) : Except String JValue := .ok (.int t.time.timestamp)

def encodeParseE : Parse → Except String JValue
  | .Full => .ok (.str "full")
  | .None => .ok (.str "none")

def encodeFieldE (f : Field) : Except String JValue := do
  let v ← encodeSlackTextE f.value
  let sp ← optPairE "short" f.short (fun b => .ok (.bool b))
  .ok (.obj (("title", .str f.title) :: ("value", v) :: sp))

def encodeAttachmentE (a : Attachment) : Except String JValue := do
  let fb ← encodeSlackTextE a.fallback
  let p1 ← optPairE "text" a.text encodeSlackTextE
  let p2 ← optPairE "pretext" a.pretext encodeSlackTextE
  let p3 ← optPairE "color" a.color encodeHexColorE
  let p4 ← optPairE "fields" a.fields (fun fs => do
    let l ← mapJE encodeFieldE fs
    Except.ok (JValue.arr l))
  let p5 ← optPairE "author_name" a.author_name encodeSlackTextE
  let p6 ← optPairE "author_link" a.author_link encodeUrlE
  let p7 ← optPairE "author_icon" a.author_icon encodeUrlE
  let p8 ← optPairE "title" a.title encodeSlackTextE
  let p9 ← optPairE "title_link" a.title_link encodeUrlE
  let p10 ← optPairE "image_url" a.image_url encodeUrlE
  let p11 ← optPairE "thumb_url" a.thumb_url encodeUrlE
  let p12 ← optPairE "footer" a.footer encodeSlackTextE
  let p13 ← optPairE "footer_icon" a.footer_icon encodeUrlE
  let p14 ← optPairE "ts" a.ts encodeSlackTimeE
  .ok (.obj (("fallback", fb) ::
    (p1 ++ p2 ++ p3 ++ p4 ++ p5 ++ p6 ++ p7 ++ p8 ++ p9 ++ p10 ++ p11 ++ p12 ++ p13 ++ p14)))

def encodePayloadE (p : Payload) : Except String JValue := do
  let q1 ← optPairE "text" p.text encodeSlackTextE
  let q2 ← optPairE "channel" p.channel (fun s => .ok (.str s))
  let q3 ← optPairE "username" p.username (fun s => .ok (.str s))
  let q4 ← optPairE "icon_url" p.icon_url encodeUrlE
  let q5 ← optPairE "icon_emoji" p.icon_emoji (fun s => .ok (.str s))
  let q6 ← optPairE "attachments" p.attachments (fun l => do
    let js ← mapJE encodeAttachmentE l
    Except.ok (JValue.arr js))
  let q7 ← optPairE "unfurl_links" p.unfurl_links (fun b => .ok (.bool b))
  let q8 ← optPairE "unfurl_media" p.unfurl_media (fun b => .ok (.bool b))
  let q9 ← optPairE "link_names" p.link_names (fun b => .ok (.int b.val))
  let q10 ← optPairE "parse" p.parse encodeParseE
  .ok (.obj (q1 ++ q2 ++ q3 ++ q4 ++ q5 ++ q6 ++ q7 ++ q8 ++ q9 ++ q10))

theorem optPairE_ok (f : α → JValue) (fE : α → Except String JValue)
    (h : ∀ v, fE v = .ok (f v)) (k : String) (o : Option α) :
    optPairE k o fE = .ok (optPair k o f) := by
  cases o <;> simp [optPairE, optPair, h, ok_bind]

theorem mapJE_ok {f : α → JValue} {fE : α → Except String JValue}
    (h : ∀ x, fE x = .ok (f x)) : ∀ l : List α, mapJE fE l = .ok (l.map f) := by
  intro l
  induction l with
  | nil => rfl
  | cons x xs ih => simp [mapJE, h, ih, ok_bind]

theorem encodeFieldE_ok (f : Field) : encodeFieldE f = .ok (encodeField f) := by
  rw [encodeFieldE, encodeSlackTextE, ok_bind,
    optPairE_ok (fun b => JValue.bool b) _ (fun v => rfl), ok_bind]
  rfl

theorem encodeAttachmentE_ok (a : Attachment) :
    encodeAttachmentE a = .ok (encodeAttachment a) := by
  have hst : ∀ v : SlackText, encodeSlackTextE v = .ok (encodeSlackText v) := fun v => rfl
  have hurl : ∀ v : Url, encodeUrlE v = .ok (encodeUrl v) := fun v => rfl
  have hcol : ∀ v : HexColor, encodeHexColorE v = .ok (encodeHexColor v) := fun v => rfl
  have htime : ∀ v : SlackTime, encodeSlackTimeE v = .ok (encodeSlackTime v) := fun v => rfl
  have hfl : ∀ fs : List Field,
      (do
        let l ← mapJE encodeFieldE fs
        Except.ok (JValue.arr l)) =
        (Except.ok (JValue.arr (fs.map encodeField)) : Except String JValue) :=
    fun fs => by rw [mapJE_ok encodeFieldE_ok, ok_bind]
  rw [encodeAttachmentE, encodeSlackTextE, ok_bind,
    optPairE_ok _ _ hst, ok_bind, optPairE_ok _ _ hst, ok_bind,
    optPairE_ok _ _ hcol, ok_bind,
    optPairE_ok (fun fs => JValue.arr (fs.map encodeField)) _ hfl, ok_bind,
    optPairE_ok _ _ hst, ok_bind, optPairE_ok _ _ hurl, ok_bind,
    optPairE_ok _ _ hurl, ok_bind, optPairE_ok _ _ hst, ok_bind,
    optPairE_ok _ _ hurl, ok_bind, optPairE_ok _ _ hurl, ok_bind,
    optPairE_ok _ _ hurl, ok_bind, optPairE_ok _ _ hst, ok_bind,
    optPairE_ok _ _ hurl, ok_bind, optPairE_ok _ _ htime, ok_bind]
  rfl

theorem encodePayloadE_ok (p : Payload) : encodePayloadE p = .ok (encodePayload p) := by
  have hst : ∀ v : SlackText, encodeSlackTextE v = .ok (encodeSlackText v) := fun v => rfl
  have hurl : ∀ v : Url, encodeUrlE v = .ok (encodeUrl v) := fun v => rfl
  have hpm : ∀ v : Parse, encodeParseE v = .ok (encodeParse v) := fun v => by
    cases v <;> rfl
  have hatt : ∀ l : List Attachment,
      (do
        let js ← mapJE encodeAttachmentE l
        Except.ok (JValue.arr js)) =
        (Except.ok (JValue.arr (l.map encodeAttachment)) : Except String JValue) :=
    fun l => by rw [mapJE_ok encodeAttachmentE_ok, ok_bind]
  have hln := optPairE_ok (fun b : Fin 256 => JValue.int b.val)
    (fun b : Fin 256 => Except.ok (JValue.int b.val)) (fun v => rfl)
    "link_names" p.link_names
  rw [encodePayloadE,
    optPairE_ok _ _ hst, ok_bind,
    optPairE_ok (fun s => JValue.str s) _ (fun v => rfl), ok_bind,
    optPairE_ok (fun s => JValue.str s) _ (fun v => rfl), ok_bind,
    optPairE_ok _ _ hurl, ok_bind,
    optPairE_ok (fun s => JValue.str s) _ (fun v => rfl), ok_bind,
    optPairE_ok (fun l => JValue.arr (l.map encodeAttachment)) _ hatt, ok_bind,
    optPairE_ok (fun b => JValue.bool b) _ (fun v => rfl), ok_bind,
    optPairE_ok (fun b => JValue.bool b) _ (fun v => rfl), ok_bind,
    hln, ok_bind,
    optPairE_ok _ _ hpm, ok_bind]
  rfl

/-- C5: encoding is total once a tree is constructed: the error-propagating
serializers of `Payload`, `Attachment`, `Field` and every leaf wrapper always
return `ok` (agreeing with the pure encoders); the one fallible core
operation is color construction, which does reject some input. -/
theorem encode_never_fails :
    (∀ p, encodePayloadE p = .ok (encodePayload p)) ∧
      (∀ a, encodeAttachmentE a = .ok (encodeAttachment a)) ∧
      (∀ f, encodeFieldE f = .ok (encodeField f)) ∧
      (∀ st, encodeSlackTextE st = .ok (encodeSlackText st)) ∧
      (∀ c, encodeHexColorE c = .ok (encodeHexColor c)) ∧
      (∀ u, encodeUrlE u = .ok (encodeUrl u)) ∧
      (∀ t, encodeSlackTimeE t = .ok (encodeSlackTime t)) ∧
      (∀ pm, encodeParseE pm = .ok (encodeParse pm)) ∧
      (∃ s e, colorParse s = .error e) :=
  ⟨encodePayloadE_ok, encodeAttachmentE_ok, encodeFieldE_ok,
   fun st => rfl, fun c => rfl, fun u => rfl, fun t => rfl,
   fun pm => by cases pm <;> rfl,
   ⟨"blue", .InvalidColor "color must be a keyword or a hex string" "blue", rfl⟩⟩

end Slack
